import Mathlib

/-!
Shallow embedding of the flexiconfig configuration store
(flexiconfig.go): the dynamically typed settings tree
`map[string]interface{}`, the recursive merge `mergeMaps`, the
colon-delimited path accessors `RawGet` / `RawSet`, the typed accessors
`GetBool` / `GetString`, and the load entry point `LoadJSON`.

A Go `interface{}` value stored in the settings map is one of: `nil`,
`bool`, a number, `string`, `[]interface{}`, or a nested
`map[string]interface{}`.  We model it as the inductive `Value`; a
settings map is modelled as the association list `Tree` with unique keys
(a Go map cannot hold a key twice; key order is irrelevant to every
operation modelled here).  The in-place mutation of Go maps is modelled
by explicit state passing: an operation that mutates the receiver
returns the new tree alongside its result.
-/

namespace Flexi

mutual
/-- a dynamically typed configuration value (an `interface{}` in the source). -/
inductive Value : Type where
  | vnull  : Value
  | vbool  : Bool → Value
  | vnum   : Int → Value
  | vstr   : String → Value
  | vseq   : VList → Value
  | vtree  : Tree → Value
deriving DecidableEq

/-- a sequence of values (a `[]interface{}` in the source). -/
inductive VList : Type where
  | nil  : VList
  | cons : Value → VList → VList
deriving DecidableEq

/-- a settings map (a `map[string]interface{}` in the source), as an
association list with unique keys. -/
inductive Tree : Type where
  | nil  : Tree
  | cons : String → Value → Tree → Tree
deriving DecidableEq
end

/-- builds a `Tree` from a list of key/value pairs (a convenience for
writing concrete stores). -/
def Tree.ofList : List (String × Value) → Tree
  | [] => .nil
  | (k, v) :: rest => .cons k v (Tree.ofList rest)

/-- the Go map read `m[k]` together with its comma-ok form: `some v` iff
the key is present (a key can be present with value `nil`, modelled as
`Value.vnull`). -/
def lookupT : Tree → String → Option Value
  | .nil, _ => none
  | .cons k' v rest, k => if k' = k then some v else lookupT rest k

/-- the Go map write `m[k] = v`: replaces the value if the key is
present, otherwise adds the key. -/
def insertT : Tree → String → Value → Tree
  | .nil, k, v => .cons k v .nil
  | .cons k' v' rest, k, v =>
      if k' = k then .cons k v rest else .cons k' v' (insertT rest k v)

/-- the keys of a settings map. -/
def keysT : Tree → List String
  | .nil => []
  | .cons k _ rest => k :: keysT rest

/-- whether a value is a nested settings map (that is, whether the Go
type assertion `value.(map[string]interface{})` succeeds on it). -/
def Value.isTree : Value → Bool
  | .vtree _ => true
  | _ => false

/-- the character-level splitter behind `splitOnColon`; `acc` holds the
current segment reversed. -/
def splitCharsOnColon : List Char → List Char → List String
  | [], acc => [String.mk acc.reverse]
  | c :: cs, acc =>
      if c = ':' then String.mk acc.reverse :: splitCharsOnColon cs []
      else splitCharsOnColon cs (c :: acc)

/-- the source call `strings.Split(path, ":")`: splits a path at every
colon; the result always has at least one segment. -/
def splitOnColon (s : String) : List String :=
  splitCharsOnColon s.toList []

/-- the function `mergeMaps` from flexiconfig.go (duplicated in
settings.go): folds the entries of the second map into the first.  A
map-valued entry merges recursively into the existing map at that key
(or into a fresh empty map when the existing slot is absent or not a
map); any other entry overwrites the existing slot.  The Go function
returns an `error` that is always `nil` (recursive results are
discarded and the single return statement is `return nil`); the
`Option String` component mirrors that returned error. -/
def mergeMaps : Tree → Tree → Tree × Option String
  | existing, .nil => (existing, none)
  | existing, .cons key value rest =>
    match value with
    | .vtree nv =>
      match lookupT existing key with
      | some (.vtree ev) =>
          mergeMaps (insertT existing key (.vtree (mergeMaps ev nv).1)) rest
      | _ =>
          mergeMaps (insertT existing key (.vtree (mergeMaps Tree.nil nv).1)) rest
    | _ => mergeMaps (insertT existing key value) rest

/-- the method `Settings.MergeSettings`: merges a freshly parsed map into
the store; returns the (always-nil) error of `mergeMaps`. -/
def MergeSettings (t newSettings : Tree) : Tree × Option String :=
  mergeMaps t newSettings

/-- the navigation/read loop of `Settings.RawGet`.  It walks the
navigation segments; a segment that is absent or whose value is not a
map fails with the error message of the source.  At the final segment
the source runs the type assertion `node[finalpart].(interface{})`,
which fails exactly when the slot is absent or holds `nil`. -/
def getPathAux (path : String) : Tree → List String → String → Except String Value
  | node, [], finalpart =>
    match lookupT node finalpart with
    | some v =>
        if v = .vnull then
          .error ("Could not find " ++ path ++ " (missing " ++ finalpart ++ ")")
        else .ok v
    | none => .error ("Could not find " ++ path ++ " (missing " ++ finalpart ++ ")")
  | node, part :: rest, finalpart =>
    match lookupT node part with
    | some (.vtree sub) => getPathAux path sub rest finalpart
    | _ => .error ("Could not find " ++ path ++ " (missing " ++ part ++ ")")

/-- the method `Settings.RawGet`: splits the path on colons, navigates,
and returns the value at the final segment.  The method body contains no
map write, so the settings tree of the receiver after the call is the
input tree, returned as the first component. -/
def RawGet (t : Tree) (path : String) : Tree × Except String Value :=
  let parts := splitOnColon path
  (t, getPathAux path t parts.dropLast (parts.getLastD ""))

/-- the navigation/write loop of `Settings.RawSet`.  The result is
`some (tree, err)` for a normal return (the settings tree after the call
together with the returned error) and `none` for a runtime fault.  An
absent navigation segment is populated with a fresh empty map.  A
segment whose value is present but not a map fails the two-value type
assertion `node, ok = nodePart.(map[string]interface{})`, which zeroes
the loop variable `node` to the nil map; when `timid` is set the method
then returns the not-found error before any write, but when `timid` is
clear it runs `node[part] = newMap` on that nil map, which is an
assignment to an entry in a nil map: a runtime panic, modelled as
`none`.  A parent map whose subtree was navigated into receives the
(possibly mutated) subtree back, modelling the in-place mutation of the
shared nested Go map; a fault deeper down unwinds with no observable
result. -/
def setPathAux (path : String) (timid : Bool) :
    Tree → List String → String → Value → Option (Tree × Option String)
  | node, [], finalpart, value => some (insertT node finalpart value, none)
  | node, part :: rest, finalpart, value =>
    match lookupT node part with
    | some (.vtree sub) =>
        match setPathAux path timid sub rest finalpart value with
        | some r => some (insertT node part (.vtree r.1), r.2)
        | none => none
    | some _ =>
        if timid then
          some (node, some ("Could not find " ++ path ++ " (missing " ++ part ++ ")"))
        else none
    | none =>
        match setPathAux path timid Tree.nil rest finalpart value with
        | some r => some (insertT node part (.vtree r.1), r.2)
        | none => none

/-- the method `Settings.RawSet`: splits the path on colons, navigates
(creating intermediate maps at absent segments), then assigns the value
at the final segment.  `some (tree, err)` is a normal return; `none` is
the nil-map runtime fault of the non-timid type-conflict branch. -/
def RawSet (t : Tree) (timid : Bool) (path : String) (value : Value) :
    Option (Tree × Option String) :=
  let parts := splitOnColon path
  setPathAux path timid t parts.dropLast (parts.getLastD "") value

/-- the method `Settings.GetBool`: raw lookup, then the type assertion
`rawvalue.(bool)` with no coercion; on any failure the default supplied
by the caller is returned alongside the error. -/
def GetBool (t : Tree) (path : String) (defaultValue : Bool) : Bool × Option String :=
  match (RawGet t path).2 with
  | .error e => (defaultValue, some e)
  | .ok rawvalue =>
    match rawvalue with
    | .vbool value => (value, none)
    | _ => (defaultValue, some (path ++ " is not a bool"))

/-- the method `Settings.GetString`: raw lookup, then the type assertion
`rawvalue.(string)` with no coercion; on any failure the default
supplied by the caller is returned alongside the error. -/
def GetString (t : Tree) (path : String) (defaultValue : String) : String × Option String :=
  match (RawGet t path).2 with
  | .error e => (defaultValue, some e)
  | .ok rawvalue =>
    match rawvalue with
    | .vstr value => (value, none)
    | _ => (defaultValue, some (path ++ " is not a string"))

/-- whether a raw-get result is a bool value (the success case of the
type assertion in `GetBool`). -/
def isBoolResult : Except String Value → Bool
  | .ok (.vbool _) => true
  | _ => false

/-- whether a raw-get result is a string value (the success case of the
type assertion in `GetString`). -/
def isStrResult : Except String Value → Bool
  | .ok (.vstr _) => true
  | _ => false

/-- whether a map slot holds a nested map: `false` exactly when the slot
is absent or its value fails the `map[string]interface{}` type
assertion, i.e. when navigation through it fails. -/
def isTreeSlot : Option Value → Bool
  | some (.vtree _) => true
  | _ => false

/-- the method `Settings.LoadJSON`: `json.Unmarshal` is the external
standard-library collaborator, abstracted here as its result `parsed`
(the decoded top-level map, or the decode error).  On a decode error the
method returns that error before `MergeSettings` is reached; otherwise
it returns the result of `MergeSettings`. -/
def LoadJSON (t : Tree) (parsed : Except String Tree) : Tree × Option String :=
  match parsed with
  | .error e => (t, some e)
  | .ok newSettings => MergeSettings t newSettings

/-- read-only navigation through nested maps (a proof helper naming the
tree reached by a successful `RawGet` navigation). -/
def navigate : Tree → List String → Option Tree
  | t, [] => some t
  | t, part :: rest =>
    match lookupT t part with
    | some (.vtree sub) => navigate sub rest
    | _ => none

/-- writing a key and reading it back yields the written value. -/
theorem lookupT_insertT_self (k : String) (v : Value) :
    ∀ (t : Tree), lookupT (insertT t k v) k = some v
  | .nil => by simp [insertT, lookupT]
  | .cons k' v' rest => by
      by_cases h : k' = k <;>
        simp [insertT, lookupT, h, lookupT_insertT_self k v rest]

/-- writing one key does not change the value read at another key. -/
theorem lookupT_insertT_ne (k' k : String) (v : Value) (h : k' ≠ k) :
    ∀ (t : Tree), lookupT (insertT t k' v) k = lookupT t k
  | .nil => by simp [insertT, lookupT, h]
  | .cons k'' v'' rest => by
      by_cases h2 : k'' = k' <;>
        simp [insertT, lookupT, h, h2, lookupT_insertT_ne k' k v h rest]

/-- the error component of `mergeMaps` is always `none`, matching the
single `return nil` of the source. -/
theorem mergeMaps_snd : ∀ (new existing : Tree), (mergeMaps existing new).2 = none
  | .nil, e => rfl
  | .cons key value rest, e => by
      cases value <;> simp only [mergeMaps]
      case vtree nv =>
        rcases h : lookupT e key with _ | val
        · simp only [h]; exact mergeMaps_snd rest _
        · cases val <;> simp only [h] <;> exact mergeMaps_snd rest _
      all_goals exact mergeMaps_snd rest _

/-- merging only touches the keys of the incoming map: any other key
reads the same value afterwards. -/
theorem lookupT_mergeMaps_not_mem :
    ∀ (new existing : Tree) (k : String), k ∉ keysT new →
      lookupT (mergeMaps existing new).1 k = lookupT existing k
  | .nil, e, k, _ => rfl
  | .cons key value rest, e, k, h => by
      have hk : key ≠ k := by
        simp [keysT] at h; exact fun hh => absurd hh.symm h.1
      have hr : k ∉ keysT rest := by simp [keysT] at h; exact h.2
      have step : ∀ v' : Value,
          lookupT (mergeMaps (insertT e key v') rest).1 k = lookupT e k := by
        intro v'
        rw [lookupT_mergeMaps_not_mem rest _ k hr, lookupT_insertT_ne key k v' hk]
      cases value <;> simp only [mergeMaps]
      case vtree nv =>
        rcases hl : lookupT e key with _ | val
        · simp only [hl]; exact step _
        · cases val <;> simp only [hl] <;> exact step _
      all_goals exact step _

/-- an incoming entry that is not a nested map overwrites the existing
slot: after the merge the key reads the incoming value. -/
theorem lookupT_mergeMaps_override :
    ∀ (new existing : Tree) (k : String) (v : Value),
      (keysT new).Nodup → lookupT new k = some v → v.isTree = false →
      lookupT (mergeMaps existing new).1 k = some v
  | .nil, e, k, v, _, hlk, _ => by simp [lookupT] at hlk
  | .cons key value rest, e, k, v, hnd, hlk, hnt => by
      by_cases hk : key = k
      · subst hk
        have hv : value = v := by simpa [lookupT] using hlk
        subst hv
        have hmem : key ∉ keysT rest := by simp [keysT] at hnd; exact hnd.1
        cases value <;> simp [Value.isTree] at hnt <;> simp only [mergeMaps] <;>
          rw [lookupT_mergeMaps_not_mem rest _ key hmem, lookupT_insertT_self]
      · have hlk' : lookupT rest k = some v := by simpa [lookupT, hk] using hlk
        have hnd' : (keysT rest).Nodup := by simp [keysT] at hnd; exact hnd.2
        cases value <;> simp only [mergeMaps] <;>
          try exact lookupT_mergeMaps_override rest _ k v hnd' hlk' hnt
        rcases hl : lookupT e key with _ | val
        · simp only [hl]; exact lookupT_mergeMaps_override rest _ k v hnd' hlk' hnt
        · cases val <;> simp only [hl] <;>
            exact lookupT_mergeMaps_override rest _ k v hnd' hlk' hnt

/-- an incoming nested map merges recursively with an existing nested
map at the same key: after the merge the key reads the recursive merge
of the two subtrees. -/
theorem lookupT_mergeMaps_tree :
    ∀ (new existing : Tree) (k : String) (ev nv : Tree),
      (keysT new).Nodup → lookupT new k = some (.vtree nv) →
      lookupT existing k = some (.vtree ev) →
      lookupT (mergeMaps existing new).1 k = some (.vtree (mergeMaps ev nv).1)
  | .nil, e, k, ev, nv, _, hlk, _ => by simp [lookupT] at hlk
  | .cons key value rest, e, k, ev, nv, hnd, hnew, hex => by
      by_cases hk : key = k
      · subst hk
        have hv : value = .vtree nv := by simpa [lookupT] using hnew
        subst hv
        have hmem : key ∉ keysT rest := by simp [keysT] at hnd; exact hnd.1
        simp only [mergeMaps, hex]
        rw [lookupT_mergeMaps_not_mem rest _ key hmem, lookupT_insertT_self]
      · have hnew' : lookupT rest k = some (.vtree nv) := by simpa [lookupT, hk] using hnew
        have hnd' : (keysT rest).Nodup := by simp [keysT] at hnd; exact hnd.2
        have step : ∀ v' : Value,
            lookupT (mergeMaps (insertT e key v') rest).1 k
              = some (.vtree (mergeMaps ev nv).1) := by
          intro v'
          have hex' : lookupT (insertT e key v') k = some (.vtree ev) := by
            rw [lookupT_insertT_ne key k v' hk]; exact hex
          exact lookupT_mergeMaps_tree rest _ k ev nv hnd' hnew' hex'
        cases value <;> simp only [mergeMaps] <;> try exact step _
        rcases hl : lookupT e key with _ | val
        · simp only [hl]; exact step _
        · cases val <;> simp only [hl] <;> exact step _

/-- whenever a non-timid set of a non-nil value returns normally (no
nil-map fault), reading back along the same segments yields the value
that was written. -/
theorem getPathAux_setPathAux (v : Value) (hv : v ≠ Value.vnull) (path : String) :
    ∀ (parts : List String) (t : Tree) (finalpart : String) (r : Tree × Option String),
      setPathAux path false t parts finalpart v = some r →
      getPathAux path r.1 parts finalpart = .ok v
  | [], t, finalpart, r => by
      intro hr
      simp only [setPathAux, Option.some.injEq] at hr
      subst hr
      simp [getPathAux, lookupT_insertT_self, hv]
  | part :: rest, t, finalpart, r => by
      intro hr
      have step : ∀ (sub : Tree) (r' : Tree × Option String),
          setPathAux path false sub rest finalpart v = some r' →
          r = (insertT t part (.vtree r'.1), r'.2) →
          getPathAux path r.1 (part :: rest) finalpart = .ok v := by
        intro sub r' hs hr
        subst hr
        simp only [getPathAux, lookupT_insertT_self]
        exact getPathAux_setPathAux v hv path rest sub finalpart r' hs
      rcases h : lookupT t part with _ | val
      · simp only [setPathAux, h] at hr
        rcases hs : setPathAux path false Tree.nil rest finalpart v with _ | r'
        · rw [hs] at hr; exact Option.noConfusion hr
        · rw [hs] at hr
          simp only [Option.some.injEq] at hr
          exact step Tree.nil r' hs hr.symm
      · cases val <;>
          simp only [setPathAux, h, Bool.false_eq_true, if_false] at hr <;>
          try exact Option.noConfusion hr
        rename_i sub
        rcases hs : setPathAux path false sub rest finalpart v with _ | r'
        · rw [hs] at hr; exact Option.noConfusion hr
        · rw [hs] at hr
          simp only [Option.some.injEq] at hr
          exact step sub r' hs hr.symm

/-- when the read navigation resolves a prefix of the segments to a
node, the whole read behaves like a read of the remaining segments at
that node. -/
theorem getPathAux_append_navigate (path finalpart : String) (rest : List String) :
    ∀ (pre : List String) (t node : Tree), navigate t pre = some node →
      getPathAux path t (pre ++ rest) finalpart = getPathAux path node rest finalpart
  | [], t, node => by
      intro h
      simp only [navigate, Option.some.injEq] at h
      subst h; rfl
  | part :: pre, t, node => by
      intro h
      rcases hl : lookupT t part with _ | val
      · simp [navigate, hl] at h
      · cases val <;> simp only [navigate, hl] at h <;>
          first
            | exact absurd h (by simp)
            | (rename_i sub
               simp only [List.cons_append, getPathAux, hl]
               exact getPathAux_append_navigate path finalpart rest pre sub node h)

/-- a navigation segment that is absent or holds a non-map value makes
the read fail at that very segment, with the error of the source naming
it. -/
theorem getPathAux_fails_at_segment (path finalpart : String)
    (pre post : List String) (t node : Tree) (part : String)
    (hnav : navigate t pre = some node)
    (hslot : isTreeSlot (lookupT node part) = false) :
    getPathAux path t (pre ++ part :: post) finalpart
      = .error ("Could not find " ++ path ++ " (missing " ++ part ++ ")") := by
  rw [getPathAux_append_navigate path finalpart (part :: post) pre t node hnav]
  rcases hl : lookupT node part with _ | val
  · simp [getPathAux, hl]
  · rw [hl] at hslot
    cases val <;> simp [isTreeSlot] at hslot <;> simp [getPathAux, hl]

/-- every error produced by the read navigation carries the message of
the source, naming the path and the segment that failed. -/
theorem getPathAux_error (path : String) :
    ∀ (parts : List String) (t : Tree) (finalpart e : String),
      getPathAux path t parts finalpart = .error e →
      ∃ part, (part ∈ parts ∨ part = finalpart) ∧
        e = "Could not find " ++ path ++ " (missing " ++ part ++ ")"
  | [], t, finalpart, e => by
      intro h
      rcases hl : lookupT t finalpart with _ | val
      · simp only [getPathAux, hl, Except.error.injEq] at h
        exact ⟨finalpart, Or.inr rfl, h.symm⟩
      · simp only [getPathAux, hl] at h
        by_cases hn : val = Value.vnull
        · subst hn
          rw [if_pos rfl] at h
          simp only [Except.error.injEq] at h
          exact ⟨finalpart, Or.inr rfl, h.symm⟩
        · simp [hn] at h
  | part :: rest, t, finalpart, e => by
      intro h
      rcases hl : lookupT t part with _ | val
      · simp only [getPathAux, hl, Except.error.injEq] at h
        exact ⟨part, Or.inl (List.mem_cons_self part rest), h.symm⟩
      · cases val <;> simp only [getPathAux, hl, Except.error.injEq] at h <;>
          first
            | exact ⟨part, Or.inl (List.mem_cons_self part rest), h.symm⟩
            | (rename_i sub
               obtain ⟨p, hp, he⟩ := getPathAux_error path rest sub finalpart e h
               exact ⟨p, by
                 rcases hp with hp | hp
                 · exact Or.inl (List.mem_cons_of_mem part hp)
                 · exact Or.inr hp, he⟩)

/-- when the read navigation reaches a node, the whole read behaves like
a read of the final segment at that node. -/
theorem getPathAux_of_navigate (path finalpart : String) :
    ∀ (parts : List String) (t node : Tree), navigate t parts = some node →
      getPathAux path t parts finalpart = getPathAux path node [] finalpart
  | [], t, node => by
      intro h
      simp only [navigate, Option.some.injEq] at h
      subst h; rfl
  | part :: rest, t, node => by
      intro h
      rcases hl : lookupT t part with _ | val
      · simp [navigate, hl] at h
      · cases val <;> simp only [navigate, hl] at h <;>
          first
            | exact absurd h (by simp)
            | (rename_i sub
               simp only [getPathAux, hl]
               exact getPathAux_of_navigate path finalpart rest sub node h)

/-- splitting never produces the empty list of segments. -/
theorem splitCharsOnColon_ne_nil :
    ∀ (cs acc : List Char), splitCharsOnColon cs acc ≠ []
  | [], acc => by simp [splitCharsOnColon]
  | c :: cs, acc => by
      by_cases h : c = ':'
      · simp [splitCharsOnColon, h]
      · simp only [splitCharsOnColon, if_neg h]
        exact splitCharsOnColon_ne_nil cs (c :: acc)

/-- a nonempty list is its leading segments followed by its last
element. -/
theorem dropLast_append_getLastD {α : Type} (d : α) :
    ∀ (l : List α), l ≠ [] → l.dropLast ++ [l.getLastD d] = l
  | [x], _ => rfl
  | x :: y :: rest, _ => by
      have := dropLast_append_getLastD d (y :: rest) (by simp)
      simpa [List.dropLast] using this

/-- at the final segment, a nil value and an absent key produce the same
not-found error. -/
theorem getPathAux_final_null_or_absent (path finalpart : String) (node : Tree)
    (h : lookupT node finalpart = some Value.vnull ∨ lookupT node finalpart = none) :
    getPathAux path node [] finalpart
      = .error ("Could not find " ++ path ++ " (missing " ++ finalpart ++ ")") := by
  rcases h with h | h <;> simp [getPathAux, h]

/-- Claim C1: merge is additive for tree-valued keys.  Whenever the
incoming map and the existing map both hold a nested map at a key, the
merged store holds the recursive merge of the two nested maps at that
key; in particular merging a store containing only a.x = 1 with an
incoming map containing only a.y = 2 yields a store whose entry a holds
both x = 1 and y = 2, not only y = 2. -/
theorem merge_additive_for_tree_keys :
    (∀ (existing new : Tree) (k : String) (ev nv : Tree),
        (keysT new).Nodup →
        lookupT new k = some (.vtree nv) →
        lookupT existing k = some (.vtree ev) →
        lookupT (mergeMaps existing new).1 k = some (.vtree (mergeMaps ev nv).1)) ∧
    (mergeMaps
        (mergeMaps Tree.nil
          (Tree.ofList [("a", .vtree (Tree.ofList [("x", Value.vnum 1)]))])).1
        (Tree.ofList [("a", .vtree (Tree.ofList [("y", Value.vnum 2)]))])).1
      = Tree.ofList [("a", .vtree (Tree.ofList [("x", Value.vnum 1), ("y", Value.vnum 2)]))] :=
  ⟨fun existing new k ev nv hnd hnew hex =>
      lookupT_mergeMaps_tree new existing k ev nv hnd hnew hex,
   by decide⟩

/-- Witness for claim C1 at the example of the specification: merging
the incoming map a = (y = 2) into the existing store a = (x = 1). -/
theorem merge_additive_for_tree_keys_witness :
    (keysT (Tree.ofList [("a", Value.vtree (Tree.ofList [("y", Value.vnum 2)]))])).Nodup ∧
    lookupT (Tree.ofList [("a", Value.vtree (Tree.ofList [("y", Value.vnum 2)]))]) "a"
      = some (.vtree (Tree.ofList [("y", Value.vnum 2)])) ∧
    lookupT (Tree.ofList [("a", Value.vtree (Tree.ofList [("x", Value.vnum 1)]))]) "a"
      = some (.vtree (Tree.ofList [("x", Value.vnum 1)])) ∧
    lookupT (mergeMaps (Tree.ofList [("a", Value.vtree (Tree.ofList [("x", Value.vnum 1)]))])
        (Tree.ofList [("a", Value.vtree (Tree.ofList [("y", Value.vnum 2)]))])).1 "a"
      = some (.vtree (mergeMaps (Tree.ofList [("x", Value.vnum 1)])
          (Tree.ofList [("y", Value.vnum 2)])).1) :=
  ⟨by decide, by decide, by decide,
   merge_additive_for_tree_keys.1 _ _ "a" _ _ (by decide) (by decide) (by decide)⟩

/-- Claim C2: for every key whose incoming value is not a nested map
(scalar, nil, or sequence), the merge unconditionally replaces the
existing value at that key, so after the merge the key reads the
incoming value; applied at every nesting level this makes the
last-loaded value win for overlapping non-map keys. -/
theorem merge_overwrites_non_tree_values (existing new : Tree) (k : String) (v : Value)
    (hnd : (keysT new).Nodup) (hnew : lookupT new k = some v)
    (hnt : v.isTree = false) :
    lookupT (mergeMaps existing new).1 k = some v :=
  lookupT_mergeMaps_override new existing k v hnd hnew hnt

/-- Witness for claim C2: merging k = 2 over an existing k = 1 leaves
k = 2 in the store. -/
theorem merge_overwrites_non_tree_values_witness :
    (keysT (Tree.ofList [("k", Value.vnum 2)])).Nodup ∧
    lookupT (Tree.ofList [("k", Value.vnum 2)]) "k" = some (Value.vnum 2) ∧
    (Value.vnum 2).isTree = false ∧
    lookupT (mergeMaps (Tree.ofList [("k", Value.vnum 1)])
        (Tree.ofList [("k", Value.vnum 2)])).1 "k" = some (Value.vnum 2) :=
  ⟨by decide, by decide, by decide,
   merge_overwrites_non_tree_values _ _ "k" _ (by decide) (by decide) (by decide)⟩

/-- Claim C3 (a bug in the code): the claim, the specification and the
doc comment of RawSet itself all say that on the store a = 5 a
non-timid RawSet of "a:b" succeeds and the store becomes a = (b = v).
The code does something else at this very input: the failed type
assertion zeroes the loop variable to the nil map and the repair branch
then assigns into that nil map, a runtime panic.  This theorem
evaluates the model at the failing input: the call faults (result
`none`) for every value v instead of returning nil error with the
repaired store. -/
theorem rawset_nontimid_conflict_is_nil_map_fault (v : Value) :
    RawSet (Tree.ofList [("a", Value.vnum 5)]) false "a:b" v = none := rfl

/-- Claim C4: timid set fails atomically on a type conflict.  On the
store a = 5, a timid RawSet of "a:b" returns normally (no fault) with
the path-not-found error of the source, and the store is exactly a = 5,
unchanged. -/
theorem rawset_timid_conflict_fails_unchanged (v : Value) :
    RawSet (Tree.ofList [("a", Value.vnum 5)]) true "a:b" v
      = some (Tree.ofList [("a", Value.vnum 5)], some ("Could not find a:b (missing a)")) := rfl

/-- Counterexample to claim C5 as stated: the round trip does not hold
for every value and every store.  First, for the nil value: setting "a"
to nil on the empty store returns normally, but reading "a" back does
not return the stored value, because the final type assertion of RawGet
rejects nil.  Second, on the store a = 5 and path "a:b" the non-timid
set itself faults on the nil-map assignment, so no round trip happens
at all. -/
theorem set_get_round_trip_counterexample :
    (RawSet Tree.nil false "a" Value.vnull
        = some (Tree.ofList [("a", Value.vnull)], none) ∧
      (RawGet (Tree.ofList [("a", Value.vnull)]) "a").2 ≠ Except.ok Value.vnull) ∧
    RawSet (Tree.ofList [("a", Value.vnum 5)]) false "a:b" (Value.vnum 7) = none := by
  refine ⟨⟨by decide, ?_⟩, rfl⟩
  rw [show (RawGet (Tree.ofList [("a", Value.vnull)]) "a").2
      = Except.error "Could not find a (missing a)" from rfl]
  intro h
  exact Except.noConfusion h

/-- Claim C5 (amended: the written value must not be nil, and the
non-timid set must return normally rather than hit the nil-map fault of
the repair branch): whenever a non-timid RawSet of a non-nil value
returns a store, RawGet of the same path on that store returns exactly
the written value with no error. -/
theorem set_get_round_trip (t : Tree) (path : String) (v : Value)
    (r : Tree × Option String)
    (hv : v ≠ Value.vnull)
    (hr : RawSet t false path v = some r) :
    (RawGet r.1 path).2 = Except.ok v := by
  simp only [RawSet] at hr
  simp only [RawGet]
  exact getPathAux_setPathAux v hv path _ t _ r hr

/-- Witness for claim C5: the round trip at the empty store, the path
"a:b:c" and the value 7. -/
theorem set_get_round_trip_witness :
    (Value.vnum 7 ≠ Value.vnull) ∧
    RawSet Tree.nil false "a:b:c" (Value.vnum 7)
      = some (Tree.ofList [("a", Value.vtree (Tree.ofList
          [("b", Value.vtree (Tree.ofList [("c", Value.vnum 7)]))]))], none) ∧
    (RawGet (Tree.ofList [("a", Value.vtree (Tree.ofList
        [("b", Value.vtree (Tree.ofList [("c", Value.vnum 7)]))]))]) "a:b:c").2
      = Except.ok (Value.vnum 7) :=
  ⟨by decide, by decide,
   set_get_round_trip Tree.nil "a:b:c" (Value.vnum 7)
     (Tree.ofList [("a", Value.vtree (Tree.ofList
        [("b", Value.vtree (Tree.ofList [("c", Value.vnum 7)]))]))], none)
     (by decide) (by decide)⟩

/-- Claim C6: GetBool and GetString perform no coercion and always hand
back the default of the caller on failure: whenever the raw lookup does
not produce a value of exactly the requested primitive type (missing
path included), the call returns the default together with a non-nil
error. -/
theorem typed_accessors_no_coercion_default_on_failure (t : Tree) (path : String) :
    (∀ b : Bool, isBoolResult (RawGet t path).2 = false →
        (GetBool t path b).1 = b ∧ (GetBool t path b).2 ≠ none) ∧
    (∀ s : String, isStrResult (RawGet t path).2 = false →
        (GetString t path s).1 = s ∧ (GetString t path s).2 ≠ none) := by
  constructor
  · intro b hb
    rcases h : (RawGet t path).2 with e | v
    · simp [GetBool, h]
    · rw [h] at hb
      cases v <;> simp [isBoolResult] at hb <;> simp [GetBool, h]
  · intro s hs
    rcases h : (RawGet t path).2 with e | v
    · simp [GetString, h]
    · rw [h] at hs
      cases v <;> simp [isStrResult] at hs <;> simp [GetString, h]

/-- Witness for claim C6 at the example of the specification: on the
store n = "hello", GetBool of "n" with default false returns false with
an error. -/
theorem typed_accessors_witness :
    isBoolResult (RawGet (Tree.ofList [("n", Value.vstr "hello")]) "n").2 = false ∧
    (GetBool (Tree.ofList [("n", Value.vstr "hello")]) "n" false).1 = false ∧
    (GetBool (Tree.ofList [("n", Value.vstr "hello")]) "n" false).2 ≠ none :=
  ⟨by decide,
   ((typed_accessors_no_coercion_default_on_failure _ "n").1 false (by decide)).1,
   ((typed_accessors_no_coercion_default_on_failure _ "n").1 false (by decide)).2⟩

/-- Claim C7: failed loads are atomic.  For every store state, when the
external decode of the byte slice fails, LoadJSON returns that non-nil
error and the settings tree is exactly what it was before the call; no
partial merge occurs. -/
theorem failed_load_leaves_store_unchanged (t : Tree) (e : String) :
    LoadJSON t (Except.error e) = (t, some e) := rfl

/-- Claim C8: RawGet is read-only and fails fast on a missing segment.
For every store and path: the settings tree after the call is the input
tree; whenever a navigation segment is absent or holds a non-map value
— the segments before it having resolved — the call returns the error
of the source naming that very segment; and every error the call
returns carries that message shape, naming the path and a segment of
it. -/
theorem rawget_read_only_error_names_segment (t : Tree) (path : String) :
    (RawGet t path).1 = t ∧
    (∀ (pre post : List String) (part : String) (node : Tree),
        (splitOnColon path).dropLast = pre ++ part :: post →
        navigate t pre = some node →
        isTreeSlot (lookupT node part) = false →
        (RawGet t path).2
          = Except.error ("Could not find " ++ path ++ " (missing " ++ part ++ ")")) ∧
    (∀ e, (RawGet t path).2 = Except.error e →
      ∃ part, part ∈ splitOnColon path ∧
        e = "Could not find " ++ path ++ " (missing " ++ part ++ ")") := by
  refine ⟨rfl, ?_, ?_⟩
  · intro pre post part node hdecomp hnav hslot
    simp only [RawGet]
    rw [hdecomp]
    exact getPathAux_fails_at_segment path ((splitOnColon path).getLastD "")
      pre post t node part hnav hslot
  · intro e h
    simp only [RawGet] at h
    obtain ⟨part, hp, he⟩ := getPathAux_error path _ t _ e h
    refine ⟨part, ?_, he⟩
    have hsplit : (splitOnColon path).dropLast ++ [(splitOnColon path).getLastD ""]
        = splitOnColon path :=
      dropLast_append_getLastD "" (splitOnColon path) (splitCharsOnColon_ne_nil _ _)
    rcases hp with hp | hp
    · rw [← hsplit]; exact List.mem_append_left _ hp
    · rw [← hsplit]; subst hp; exact List.mem_append_right _ (List.mem_singleton.mpr rfl)

/-- Witness for claim C8: reading "a:b" from the empty store leaves the
store empty, the absent navigation segment "a" forces the not-found
error naming "a", and that error names a segment of the path. -/
theorem rawget_read_only_witness :
    (RawGet Tree.nil "a:b").1 = Tree.nil ∧
    (splitOnColon "a:b").dropLast = [] ++ "a" :: [] ∧
    navigate Tree.nil [] = some Tree.nil ∧
    isTreeSlot (lookupT Tree.nil "a") = false ∧
    (RawGet Tree.nil "a:b").2
      = Except.error ("Could not find " ++ "a:b" ++ " (missing " ++ "a" ++ ")") ∧
    (∃ part, part ∈ splitOnColon "a:b" ∧
      "Could not find a:b (missing a)"
        = "Could not find " ++ "a:b" ++ " (missing " ++ part ++ ")") :=
  ⟨(rawget_read_only_error_names_segment Tree.nil "a:b").1,
   by decide, by decide, by decide,
   (rawget_read_only_error_names_segment Tree.nil "a:b").2.1 [] [] "a" Tree.nil
     (by decide) (by decide) (by decide),
   (rawget_read_only_error_names_segment Tree.nil "a:b").2.2
     "Could not find a:b (missing a)" (by rfl)⟩

/-- Claim C9: merge never fails.  For every existing tree and every
incoming tree, MergeSettings (and with it the recursive map merge)
returns a nil error. -/
theorem merge_settings_never_fails (existing newSettings : Tree) :
    (MergeSettings existing newSettings).2 = none :=
  mergeMaps_snd newSettings existing

/-- Claim C10: a stored nil value is indistinguishable from an absent
key at the accessor surface.  For every path whose navigation succeeds,
when the final key holds nil or is absent, RawGet returns the very same
not-found error naming the final segment. -/
theorem null_value_reported_as_not_found (t node : Tree) (path : String)
    (hnav : navigate t (splitOnColon path).dropLast = some node)
    (hfin : lookupT node ((splitOnColon path).getLastD "") = some Value.vnull ∨
            lookupT node ((splitOnColon path).getLastD "") = none) :
    (RawGet t path).2 = Except.error
      ("Could not find " ++ path ++ " (missing " ++ (splitOnColon path).getLastD "" ++ ")") := by
  simp only [RawGet]
  rw [getPathAux_of_navigate path ((splitOnColon path).getLastD "")
        (splitOnColon path).dropLast t node hnav]
  exact getPathAux_final_null_or_absent path ((splitOnColon path).getLastD "") node hfin

/-- Witness for claim C10: on the store a = (b = nil), reading "a:b"
navigates successfully and reports the not-found error for segment
"b". -/
theorem null_value_witness :
    navigate (Tree.ofList [("a", Value.vtree (Tree.ofList [("b", Value.vnull)]))])
        (splitOnColon "a:b").dropLast
      = some (Tree.ofList [("b", Value.vnull)]) ∧
    lookupT (Tree.ofList [("b", Value.vnull)]) ((splitOnColon "a:b").getLastD "")
      = some Value.vnull ∧
    (RawGet (Tree.ofList [("a", Value.vtree (Tree.ofList [("b", Value.vnull)]))]) "a:b").2
      = Except.error
          ("Could not find " ++ "a:b" ++ " (missing " ++ (splitOnColon "a:b").getLastD "" ++ ")") :=
  ⟨by decide, by decide,
   null_value_reported_as_not_found
     (Tree.ofList [("a", Value.vtree (Tree.ofList [("b", Value.vnull)]))])
     (Tree.ofList [("b", Value.vnull)]) "a:b" (by decide) (Or.inl (by decide))⟩

end Flexi
